import Mathlib

/-!
Shallow embedding of `ncbiTaxonomyTree.py` (repository frallain/NCBI_taxonomy_tree).

The Python program builds an in-memory taxonomy tree from the NCBI `names.dmp`
and `nodes.dmp` files and answers structural queries over it.  We model:

* Python `dict` as an insertion-ordered association list `List (Nat × α)`
  (`lookup`, `setKey`, `delKey`); re-assignment keeps the original position,
  exactly as for Python 3.7+ dicts, and mapping equality is key-wise.
* Python exceptions as an `Except PyErr` result; `PyErr.noFuel` is not a
  Python exception but the fuel-exhaustion marker used to embed the
  unbounded `while` loop / recursion of the source (a call that returns
  `.error .noFuel` for every fuel bound is a call that never terminates).
* Taxids as `Nat` (NCBI taxids are nonnegative decimal integers).
* The dynamically-typed int-or-nested-list values returned by
  `_getDescendants` / `_getLeaves` as the inductive type `PyObj`.
-/

set_option autoImplicit false

namespace NcbiTax

/-- Python exceptions (plus the fuel marker for nontermination). -/
inductive PyErr where
  /-- `KeyError` on a dict lookup, carrying the missing key. -/
  | keyError (k : Nat)
  /-- `ValueError`, e.g. from `int()` on a non-numeric string or `list.remove`. -/
  | valueError (s : String)
  /-- `IndexError` from indexing past the end of a list. -/
  | indexError
  /-- `TypeError`, e.g. iterating an `int` or using a `list` as a dict key. -/
  | typeError
  /-- Fuel exhausted: models a loop/recursion that has not yet terminated. -/
  | noFuel
deriving DecidableEq, Repr

/-- The `Node` namedtuple of `NcbiTaxonomyTree.__init__`:
`namedtuple('Node', ['name', 'rank', 'parent', 'children'])`.
`rank` and `parent` are `Option`s because placeholder nodes are created with
`rank=None, parent=None`. -/
structure Node where
  name : String
  rank : Option String
  parent : Option Nat
  children : List Nat
deriving DecidableEq, Repr

/-- One parsed record of the edge stream (`nodes.dmp`): `(taxid, parent, rank)`. -/
structure EdgeRec where
  taxid : Nat
  parent : Nat
  rank : String
deriving DecidableEq, Repr

/-- The `Node` namedtuple of the query methods:
`namedtuple('Node', ['taxid', 'rank', 'name'])`. -/
structure LNode where
  taxid : Nat
  rank : Option String
  name : String
deriving DecidableEq, Repr

/-- Taxid-to-name mapping (the temporary `taxid2name` dict). -/
abbrev Names := List (Nat × String)

/-- The tree mapping `self.dic : taxid → Node`. -/
abbrev Dic := List (Nat × Node)

/-- Dict lookup: first (and only) binding of the key. -/
def lookup {α : Type} : List (Nat × α) → Nat → Option α
  | [], _ => none
  | (k', v) :: rest, k => if k' = k then some v else lookup rest k

/-- Dict assignment `m[k] = v`: replaces in place if present (keeping the
position of first insertion, as Python dicts do), else appends. -/
def setKey {α : Type} : List (Nat × α) → Nat → α → List (Nat × α)
  | [], k, v => [(k, v)]
  | (k', v') :: rest, k, v =>
      if k' = k then (k, v) :: rest else (k', v') :: setKey rest k v

/-- Dict deletion `del m[k]` (no-op when the key is absent; the source only
deletes keys it has just looked up). -/
def delKey {α : Type} : List (Nat × α) → Nat → List (Nat × α)
  | [], _ => []
  | (k', v') :: rest, k =>
      if k' = k then rest else (k', v') :: delKey rest k

/-- The keys of a dict, in storage order. -/
def keys {α : Type} (m : List (Nat × α)) : List Nat := m.map (·.1)

/-- `str.split(sep)` with an explicit one-character separator, defined over
the character list so that it evaluates inside the kernel: accumulate the
current field (reversed), emitting a field at each separator. -/
def pySplitAux (sep : Char) : List Char → List Char → List String
  | cur, [] => [String.mk cur.reverse]
  | cur, c :: cs =>
      if c = sep then String.mk cur.reverse :: pySplitAux sep [] cs
      else pySplitAux sep (c :: cur) cs

/-- `line.split('|')` of the source (Python splits on the explicit
separator, keeping empty fields; the result is never empty). -/
def pySplit (s : String) (sep : Char) : List String := pySplitAux sep [] s.data

/-- Whitespace stripping as done by Python `int()` before reading digits. -/
def pyTrim (cs : List Char) : List Char :=
  ((cs.dropWhile Char.isWhitespace).reverse.dropWhile Char.isWhitespace).reverse

/-- `int(s)` succeeds on a field of the dmp files iff, after stripping
surrounding whitespace, a nonempty all-digit numeral remains.  (Ids in this
domain are nonnegative, so no sign handling is modelled.) -/
def isPyNat (s : String) : Bool :=
  !(pyTrim s.data).isEmpty && (pyTrim s.data).all Char.isDigit

/-- Decimal value of an all-digit character list. -/
def digitsToNat (cs : List Char) : Nat :=
  cs.foldl (fun acc c => acc * 10 + (c.toNat - 48)) 0

/-- `int(s)`: value or `ValueError`. -/
def parsePyInt (s : String) : Except PyErr Nat :=
  if isPyNat s then .ok (digitsToNat (pyTrim s.data)) else .error (.valueError s)

/-- Parsing of one `nodes.dmp` line (source lines 61-63 and the `[1:-1]` rank
framing used at lines 67 and 70):
`line = line.split('|')[:3]; taxid = int(line[0]); parent_taxid = int(line[1]);
rank = line[2][1:-1]`.  Missing fields raise `IndexError`, non-numeric id
fields raise `ValueError`.  (The source reads the rank field inside the node
construction at lines 66-72; extracting all three fields before node
construction is observationally equivalent except for which exception is
raised first on a line that is malformed in several ways at once.) -/
def parseNodeLine (s : String) : Except PyErr EdgeRec :=
  match (pySplit s '|').take 3 with
  | [] => .error .indexError
  | f0 :: rest =>
    match parsePyInt f0 with
    | .error e => .error e
    | .ok t =>
      match rest with
      | [] => .error .indexError
      | f1 :: rest2 =>
        match parsePyInt f1 with
        | .error e => .error e
        | .ok p =>
          match rest2 with
          | [] => .error .indexError
          | f2 :: _ => .ok ⟨t, p, String.mk ((f2.data.drop 1).dropLast)⟩

/-- Parsing of one `names.dmp` line (source lines 50-54): keep rows whose
fourth `|`-field is `"\tscientific name\t"`, binding `int(line[0])` to
`line[1][1:-1]` (last write wins on duplicates). -/
def parseNamesLine (names : Names) (s : String) : Except PyErr Names :=
  match pySplit s '|' with
  | f0 :: f1 :: _ :: f3 :: _ =>
      if f3 = "\tscientific name\t" then
        match parsePyInt f0 with
        | .error e => .error e
        | .ok t => .ok (setKey names t (String.mk ((f1.data.drop 1).dropLast)))
      else .ok names
  | _ => .error .indexError

/-- The whole `names.dmp` pass (source lines 49-55). -/
def parseNames : Names → List String → Except PyErr Names
  | names, [] => .ok names
  | names, l :: ls =>
    match parseNamesLine names l with
    | .error e => .error e
    | .ok names' => parseNames names' ls

/-- First half of edge-record processing (source lines 65-73): the record's
own node is promoted in place (`_replace(rank=..., parent=...)`, keeping its
children) when it already exists as a placeholder, else created from the name
table with an empty child list (consuming the name; a missing name raises
`KeyError`, the spec's `MissingNameError`). -/
def promoteOrCreate (names : Names) (dic : Dic) (r : EdgeRec) : Except PyErr (Names × Dic) :=
  match lookup dic r.taxid with
  | some n =>
      .ok (names, setKey dic r.taxid { n with rank := some r.rank, parent := some r.parent })
  | none =>
      match lookup names r.taxid with
      | none => .error (.keyError r.taxid)
      | some nm =>
          .ok (delKey names r.taxid, setKey dic r.taxid ⟨nm, some r.rank, some r.parent, []⟩)

/-- Second half of edge-record processing (source lines 75-81): append the
record's taxid to the parent's child list, creating a placeholder parent node
(`rank=None, parent=None, children=[taxid]`) when the parent is not yet in
the dict. -/
def attachToParent (names : Names) (dic : Dic) (r : EdgeRec) : Except PyErr (Names × Dic) :=
  match lookup dic r.parent with
  | some pn =>
      .ok (names, setKey dic r.parent { pn with children := pn.children ++ [r.taxid] })
  | none =>
      match lookup names r.parent with
      | none => .error (.keyError r.parent)
      | some nm =>
          .ok (delKey names r.parent, setKey dic r.parent ⟨nm, none, none, [r.taxid]⟩)

/-- Processing of one edge record (source lines 65-81).  State is the pair
`(taxid2name, dic)`. -/
def processEdgeRec (st : Names × Dic) (r : EdgeRec) : Except PyErr (Names × Dic) :=
  match promoteOrCreate st.1 st.2 r with
  | .error e => .error e
  | .ok st1 => attachToParent st1.1 st1.2 r

/-- The edge-record consumption loop of `__init__` (already-parsed records). -/
def consumeRecords : Names × Dic → List EdgeRec → Except PyErr (Names × Dic)
  | st, [] => .ok st
  | st, r :: rs =>
    match processEdgeRec st r with
    | .error e => .error e
    | .ok st' => consumeRecords st' rs

/-- The `nodes.dmp` consumption loop of `__init__`, parsing each line and
processing the record, aborting at the first exception. -/
def consumeNodeLines : Names × Dic → List String → Except PyErr (Names × Dic)
  | st, [] => .ok st
  | st, l :: ls =>
    match parseNodeLine l with
    | .error e => .error e
    | .ok r =>
      match processEdgeRec st r with
      | .error e => .error e
      | .ok st' => consumeNodeLines st' ls

/-- Root finalization (source lines 84-88): look up node `1`, remove the first
occurrence of `1` from its child list (`list.remove` raises `ValueError` when
absent), and set its parent to `None`. -/
def finalizeRoot (dic : Dic) : Except PyErr Dic :=
  match lookup dic 1 with
  | none => .error (.keyError 1)
  | some n =>
      if 1 ∈ n.children then
        .ok (setKey dic 1 { n with parent := none, children := n.children.erase 1 })
      else .error (.valueError "list.remove(x): x not in list")

/-- Tree construction from a pre-parsed name table and edge-record stream. -/
def buildFromRecords (names : Names) (recs : List EdgeRec) : Except PyErr Dic :=
  match consumeRecords (names, []) recs with
  | .error e => .error e
  | .ok (_, dic) => finalizeRoot dic

/-- Tree construction from a pre-parsed name table and raw `nodes.dmp` lines. -/
def buildFromLines (names : Names) (lines : List String) : Except PyErr Dic :=
  match consumeNodeLines (names, []) lines with
  | .error e => .error e
  | .ok (_, dic) => finalizeRoot dic

/-- Full construction: `names.dmp` lines then `nodes.dmp` lines. -/
def buildFull (nameLines nodeLines : List String) : Except PyErr Dic :=
  match parseNames [] nameLines with
  | .error e => .error e
  | .ok names => buildFromLines names nodeLines

/-! ### Queries -/

/-- The batch-query loop shared by the query methods:
`result = {}; for taxid in taxids: result[taxid] = f(taxid); return result`,
aborting at the first exception (so no partial mapping is observable). -/
def batchGo {α : Type} (f : Nat → Except PyErr α) :
    List (Nat × α) → List Nat → Except PyErr (List (Nat × α))
  | res, [] => .ok res
  | res, t :: ts =>
    match f t with
    | .error e => .error e
    | .ok v => batchGo f (setKey res t v) ts

/-- Batch query starting from the empty result dict. -/
def batchQuery {α : Type} (f : Nat → Except PyErr α) (taxids : List Nat) :
    Except PyErr (List (Nat × α)) :=
  batchGo f [] taxids

/-- `getParent` (source lines 91-103). -/
def getParent (dic : Dic) (taxids : List Nat) : Except PyErr (List (Nat × Option Nat)) :=
  batchQuery (fun t =>
    match lookup dic t with
    | none => .error (.keyError t)
    | some n => .ok n.parent) taxids

/-- `getRank` (source lines 105-117). -/
def getRank (dic : Dic) (taxids : List Nat) : Except PyErr (List (Nat × Option String)) :=
  batchQuery (fun t =>
    match lookup dic t with
    | none => .error (.keyError t)
    | some n => .ok n.rank) taxids

/-- `getChildren` (source lines 119-131). -/
def getChildren (dic : Dic) (taxids : List Nat) : Except PyErr (List (Nat × List Nat)) :=
  batchQuery (fun t =>
    match lookup dic t with
    | none => .error (.keyError t)
    | some n => .ok n.children) taxids

/-- `getName` (source lines 133-145). -/
def getName (dic : Dic) (taxids : List Nat) : Except PyErr (List (Nat × String)) :=
  batchQuery (fun t =>
    match lookup dic t with
    | none => .error (.keyError t)
    | some n => .ok n.name) taxids

/-- The `standard_ranks` list set in `__init__`. -/
def standard_ranks : List String :=
  ["species", "genus", "family", "order", "class", "phylum", "superkingdom"]

/-- `lvl.rank in self.standard_ranks` — `None` is never in a list of strings. -/
def stdRankB (r : Option String) : Bool :=
  match r with
  | some s => standard_ranks.contains s
  | none => false

/-- The `while self.dic[taxid].parent is not None` walk of
`_getAscendantsWithRanksAndNames` (source lines 175-182), fuel-bounded.
`.error .noFuel` means the loop is still running after `fuel` steps. -/
def lineageFrom (dic : Dic) : Nat → Nat → Except PyErr (List LNode)
  | 0, _ => .error .noFuel
  | fuel + 1, taxid =>
    match lookup dic taxid with
    | none => .error (.keyError taxid)
    | some n =>
      match n.parent with
      | none => .ok [⟨taxid, n.rank, n.name⟩]
      | some p =>
        match lineageFrom dic fuel p with
        | .error e => .error e
        | .ok rest => .ok (⟨taxid, n.rank, n.name⟩ :: rest)

/-- `_getAscendantsWithRanksAndNames` for one taxid (source lines 173-191):
the parent walk, then the optional standard-rank filter with the
`lineage[0]`-has-rank-`'no rank'` prepend exception. -/
def getAscOne (dic : Dic) (fuel : Nat) (taxid : Nat) (only_std_ranks : Bool) :
    Except PyErr (List LNode) :=
  match lineageFrom dic fuel taxid with
  | .error e => .error e
  | .ok lineage =>
    if only_std_ranks then
      let std_lineage := lineage.filter (fun lvl => stdRankB lvl.rank)
      match lineage.head? with
      | none => .error .indexError
      | some h0 =>
          if h0.rank = some "no rank" then .ok (h0 :: std_lineage) else .ok std_lineage
    else .ok lineage

/-- `getAscendantsWithRanksAndNames` (source lines 147-197). -/
def getAscendantsWithRanksAndNames (dic : Dic) (fuel : Nat) (taxids : List Nat)
    (only_std_ranks : Bool) : Except PyErr (List (Nat × List LNode)) :=
  batchQuery (fun t => getAscOne dic fuel t only_std_ranks) taxids

mutual
/-- A dynamically-typed Python value as produced by `_getDescendants` and
`_getLeaves`: an `int` or a (nested) `list`. -/
inductive PyObj where
  | int (n : Nat)
  | list (xs : PyList)
deriving DecidableEq, Repr

/-- A Python list of such values. -/
inductive PyList where
  | nil
  | cons (head : PyObj) (tail : PyList)
deriving DecidableEq, Repr
end

mutual
/-- One step of the `flatten` helper (source lines 10-27) on one element:
lists are recursed into, ints are kept. -/
def flatObj : PyObj → List Nat
  | .int n => [n]
  | .list xs => flatList xs

/-- `flatten` applied to a Python list (always succeeds on a list). -/
def flatList : PyList → List Nat
  | .nil => []
  | .cons x xs => flatObj x ++ flatList xs
end

/-- `flatten(seq)` as called by the query methods: iterating a bare `int`
raises `TypeError`. -/
def pyFlatten (o : PyObj) : Except PyErr (List Nat) :=
  match o with
  | .int _ => .error .typeError
  | .list xs => .ok (flatList xs)

/-- The embedding of a list comprehension `[f(c) for c in cs]` whose body can
raise, producing a Python list. -/
def mapPyList (f : Nat → Except PyErr PyObj) : List Nat → Except PyErr PyList
  | [] => .ok .nil
  | c :: cs =>
    match f c with
    | .error e => .error e
    | .ok o =>
      match mapPyList f cs with
      | .error e => .error e
      | .ok os => .ok (.cons o os)

/-- `_getDescendants` (source lines 199-214), fuel-bounded: a node with
children yields the nested list `[taxid, rec child1, rec child2, ...]`
(the `result.insert(0, taxid)`), a childless node yields the bare int
`taxid`. -/
def getDescAux (dic : Dic) : Nat → Nat → Except PyErr PyObj
  | 0, _ => .error .noFuel
  | fuel + 1, taxid =>
    match lookup dic taxid with
    | none => .error (.keyError taxid)
    | some n =>
      if n.children = [] then .ok (.int taxid)
      else
        match mapPyList (fun c => getDescAux dic fuel c) n.children with
        | .error e => .error e
        | .ok subs => .ok (.list (.cons (.int taxid) subs))

/-- `getDescendants` (source lines 216-235): per taxid,
`flatten(self._getDescendants(taxid))`. -/
def getDescendants (dic : Dic) (fuel : Nat) (taxids : List Nat) :
    Except PyErr (List (Nat × List Nat)) :=
  batchQuery (fun t =>
    match getDescAux dic fuel t with
    | .error e => .error e
    | .ok o => pyFlatten o) taxids

/-- Building one `(taxid, rank, name)` entry of `getDescendantsWithRanksAndNames`:
the raw element of `_getDescendants`' result is used directly as a dict key,
so a nested list raises `TypeError` (unhashable). -/
def descEntry (dic : Dic) (e : PyObj) : Except PyErr LNode :=
  match e with
  | .int n =>
    match lookup dic n with
    | none => .error (.keyError n)
    | some nd => .ok ⟨n, nd.rank, nd.name⟩
  | .list _ => .error .typeError

/-- The list comprehension of `getDescendantsWithRanksAndNames` over the
elements of one `_getDescendants` result. -/
def descEntries (dic : Dic) : PyList → Except PyErr (List LNode)
  | .nil => .ok []
  | .cons e es =>
    match descEntry dic e with
    | .error err => .error err
    | .ok v =>
      match descEntries dic es with
      | .error err => .error err
      | .ok vs => .ok (v :: vs)

/-- `getDescendantsWithRanksAndNames` (source lines 237-259): iterates
`self._getDescendants(taxid)` WITHOUT flattening — a bare int result is not
iterable (`TypeError`), and any nested list element is used as a dict key
(`TypeError`). -/
def getDescendantsWithRanksAndNames (dic : Dic) (fuel : Nat) (taxids : List Nat) :
    Except PyErr (List (Nat × List LNode)) :=
  batchQuery (fun t =>
    match getDescAux dic fuel t with
    | .error e => .error e
    | .ok o =>
      match o with
      | .int _ => .error .typeError
      | .list xs => descEntries dic xs) taxids

/-- `_getLeaves` (source lines 274-278), fuel-bounded: a node with children
yields the nested list of its children's results (without the node itself),
a childless node yields the bare int. -/
def getLeavesAux (dic : Dic) : Nat → Nat → Except PyErr PyObj
  | 0, _ => .error .noFuel
  | fuel + 1, taxid =>
    match lookup dic taxid with
    | none => .error (.keyError taxid)
    | some n =>
      if n.children = [] then .ok (.int taxid)
      else
        match mapPyList (fun c => getLeavesAux dic fuel c) n.children with
        | .error e => .error e
        | .ok subs => .ok (.list subs)

/-- `getLeaves` (source lines 261-285): a bare-int result (no children) is
wrapped as `[taxid]` via the `isinstance(result, Iterable)` check, a list
result is flattened. -/
def getLeaves (dic : Dic) (fuel : Nat) (taxid : Nat) : Except PyErr (List Nat) :=
  match getLeavesAux dic fuel taxid with
  | .error e => .error e
  | .ok (.int n) => .ok [n]
  | .ok (.list xs) => .ok (flatList xs)

/-! ### Spec-side notions used to state the claims -/

/-- The child list a given key should end up with, per the spec's description
of construction: the taxids of the edge records whose parent field is `k`,
in stream order. -/
def childrenOf (recs : List EdgeRec) (k : Nat) : List Nat :=
  recs.filterMap (fun r => if r.parent = k then some r.taxid else none)

/-- The parent a given key should end up with before root finalization:
the parent field of the last edge record whose taxid is `k`, if any. -/
def lastParent (recs : List EdgeRec) (k : Nat) : Option Nat :=
  recs.foldl (fun acc r => if r.taxid = k then some r.parent else acc) none

/-- A key appears in the edge stream (as a record's taxid or parent). -/
def appearsIn (recs : List EdgeRec) (k : Nat) : Prop :=
  ∃ r ∈ recs, r.taxid = k ∨ r.parent = k

/-- Duplicate removal keeping first occurrences, with an accumulator of
already-seen keys: the key order a Python dict produces from an input
sequence with duplicates. -/
def firstDedupAux (seen : List Nat) : List Nat → List Nat
  | [] => []
  | x :: xs =>
      if x ∈ seen then firstDedupAux seen xs else x :: firstDedupAux (x :: seen) xs

/-- Duplicate removal keeping first occurrences. -/
def firstDedup (xs : List Nat) : List Nat := firstDedupAux [] xs

/-- Key-wise equality of two dicts, as a decidable check over their keys
(Python `dict.__eq__` ignores insertion order). -/
def mapEqB (a b : Dic) : Bool :=
  (keys a).all (fun k => decide (lookup a k = lookup b k)) &&
  (keys b).all (fun k => decide (lookup a k = lookup b k))

/-- A malformed `nodes.dmp` line in the sense of the spec: fewer than three
`|`-separated fields, or a non-numeric id field. -/
def MalformedNodeLine (s : String) : Prop :=
  ((pySplit s '|').take 3).length < 3 ∨
  isPyNat (((pySplit s '|').take 3).headD "") = false

/-! ### Concrete fixtures -/

/-- Scientific names for the four-node E. coli chain used in the spec's
example scenario. -/
def ecoliNames : Names :=
  [(1, "root"), (543, "Enterobacteriaceae"), (561, "Escherichia"), (562, "Escherichia coli")]

/-- The spec's example edge records, in sorted order. -/
def ecoliRecs : List EdgeRec :=
  [⟨1, 1, "no rank"⟩, ⟨543, 1, "family"⟩, ⟨561, 543, "genus"⟩, ⟨562, 561, "species"⟩]

/-- The same records fed out of order, children before their parents, with
the self-referencing root record last. -/
def recsOutOfOrder : List EdgeRec :=
  [⟨561, 543, "genus"⟩, ⟨543, 1, "family"⟩, ⟨562, 561, "species"⟩, ⟨1, 1, "no rank"⟩]

/-- The tree the builder produces from `ecoliNames`/`ecoliRecs`:
the chain 1 → 543 → 561 → 562. -/
def ecoliDic : Dic :=
  [(1, ⟨"root", some "no rank", none, [543]⟩),
   (543, ⟨"Enterobacteriaceae", some "family", some 1, [561]⟩),
   (561, ⟨"Escherichia", some "genus", some 543, [562]⟩),
   (562, ⟨"Escherichia coli", some "species", some 561, []⟩)]

/-- The tree the builder produces from `ecoliNames`/`recsOutOfOrder`: the
same mapping as `ecoliDic`, stored in a different insertion order. -/
def outOfOrderDic : Dic :=
  [(561, ⟨"Escherichia", some "genus", some 543, [562]⟩),
   (543, ⟨"Enterobacteriaceae", some "family", some 1, [561]⟩),
   (1, ⟨"root", some "no rank", none, [543]⟩),
   (562, ⟨"Escherichia coli", some "species", some 561, []⟩)]

/-- A stream satisfying only the root-self-loop premise: id 3 appears as a
parent but never receives its own edge record, so it stays an unpromoted
placeholder with no parent. -/
def unpromotedRecs : List EdgeRec := [⟨2, 3, "x"⟩, ⟨1, 1, "no rank"⟩]

/-- Names for `unpromotedRecs`. -/
def unpromotedNames : Names := [(1, "root"), (2, "two"), (3, "three")]

/-- An edge stream that the builder accepts but that violates the tree
invariant: 2 and 3 are each other's parent. -/
def cyclicRecs : List EdgeRec :=
  [⟨2, 3, "a"⟩, ⟨3, 2, "b"⟩, ⟨1, 1, "no rank"⟩]

/-- Names for `cyclicRecs`. -/
def cyclicNames : Names := [(1, "root"), (2, "two"), (3, "three")]

/-- The invariant-violating tree built from `cyclicRecs`. -/
def cyclicDic : Dic :=
  [(2, ⟨"two", some "a", some 3, [3]⟩),
   (3, ⟨"three", some "b", some 2, [2]⟩),
   (1, ⟨"root", some "no rank", none, []⟩)]

/-! ### Association-list map lemmas -/

theorem keys_nil {α : Type} : keys ([] : List (Nat × α)) = [] := rfl

theorem keys_cons {α : Type} (k0 : Nat) (v0 : α) (tl : List (Nat × α)) :
    keys ((k0, v0) :: tl) = k0 :: keys tl := rfl

theorem lookup_setKey_self {α : Type} (m : List (Nat × α)) (k : Nat) (v : α) :
    lookup (setKey m k v) k = some v := by
  induction m with
  | nil => simp [setKey, lookup]
  | cons hd tl ih =>
    obtain ⟨k0, v0⟩ := hd
    by_cases h : k0 = k
    · simp [setKey, lookup, h]
    · simp [setKey, lookup, h, ih]

theorem lookup_setKey_ne {α : Type} (m : List (Nat × α)) (k k' : Nat) (v : α)
    (h : k' ≠ k) : lookup (setKey m k v) k' = lookup m k' := by
  have h1 : k ≠ k' := fun hh => h hh.symm
  induction m with
  | nil => simp [setKey, lookup, h1]
  | cons hd tl ih =>
    obtain ⟨k0, v0⟩ := hd
    by_cases h0 : k0 = k
    · subst h0
      simp [setKey, lookup, h1]
    · simp only [setKey, if_neg h0]
      by_cases h2 : k0 = k'
      · simp [lookup, h2]
      · simp [lookup, h2, ih]

theorem setKey_eq_of_lookup_eq {α : Type} (m : List (Nat × α)) (k : Nat) (v : α)
    (h : lookup m k = some v) : setKey m k v = m := by
  induction m with
  | nil => simp [lookup] at h
  | cons hd tl ih =>
    obtain ⟨k0, v0⟩ := hd
    by_cases h0 : k0 = k
    · subst h0
      rw [lookup, if_pos rfl] at h
      cases h
      simp [setKey]
    · rw [lookup, if_neg h0] at h
      simp [setKey, h0, ih h]

theorem mem_keys_iff_lookup_isSome {α : Type} (m : List (Nat × α)) (k : Nat) :
    k ∈ keys m ↔ (lookup m k).isSome := by
  induction m with
  | nil => simp [keys_nil, lookup]
  | cons hd tl ih =>
    obtain ⟨k0, v0⟩ := hd
    by_cases h0 : k0 = k
    · subst h0
      simp [keys_cons, lookup]
    · simp [keys_cons, lookup, h0, Ne.symm h0, ih]

theorem lookup_eq_none_of_not_mem_keys {α : Type} (m : List (Nat × α)) (k : Nat)
    (h : k ∉ keys m) : lookup m k = none := by
  rcases h' : lookup m k with _ | v
  · rfl
  · exact absurd ((mem_keys_iff_lookup_isSome m k).mpr (by simp [h'])) h

theorem keys_setKey_of_mem {α : Type} (m : List (Nat × α)) (k : Nat) (v : α)
    (h : k ∈ keys m) : keys (setKey m k v) = keys m := by
  induction m with
  | nil => simp [keys_nil] at h
  | cons hd tl ih =>
    obtain ⟨k0, v0⟩ := hd
    by_cases h0 : k0 = k
    · subst h0
      simp [setKey, keys_cons]
    · have h1 : k ∈ keys tl := by
        rcases (by simpa [keys_cons] using h : k = k0 ∨ k ∈ keys tl) with h2 | h2
        · exact absurd h2.symm h0
        · exact h2
      simp [setKey, keys_cons, h0, ih h1]

theorem keys_setKey_of_not_mem {α : Type} (m : List (Nat × α)) (k : Nat) (v : α)
    (h : k ∉ keys m) : keys (setKey m k v) = keys m ++ [k] := by
  induction m with
  | nil => simp [setKey, keys_nil, keys_cons]
  | cons hd tl ih =>
    obtain ⟨k0, v0⟩ := hd
    rw [keys_cons] at h
    simp only [List.mem_cons] at h
    push_neg at h
    have h0 : k0 ≠ k := fun hh => h.1 hh.symm
    simp [setKey, keys_cons, h0, ih h.2]

theorem mapEqB_lookup_eq (a b : Dic) (h : mapEqB a b = true) (k : Nat) :
    lookup a k = lookup b k := by
  unfold mapEqB at h
  rw [Bool.and_eq_true, List.all_eq_true, List.all_eq_true] at h
  by_cases ha : k ∈ keys a
  · exact of_decide_eq_true (h.1 k ha)
  · by_cases hb : k ∈ keys b
    · exact of_decide_eq_true (h.2 k hb)
    · rw [lookup_eq_none_of_not_mem_keys a k ha, lookup_eq_none_of_not_mem_keys b k hb]

/-! ### Batch-query lemmas -/

theorem batchGo_error {α : Type} (f : Nat → Except PyErr α) (ids : List Nat)
    (res : List (Nat × α)) (t : Nat) (e : PyErr) (hmem : t ∈ ids)
    (herr : f t = .error e) : ∃ t' e', f t' = .error e' ∧ batchGo f res ids = .error e' := by
  revert hmem
  induction ids generalizing res with
  | nil => intro hmem; cases hmem
  | cons x xs ih =>
    intro hmem
    rcases hx : f x with e0 | v0
    · exact ⟨x, e0, hx, by simp [batchGo, hx]⟩
    · rw [List.mem_cons] at hmem
      rcases hmem with rfl | hmem
      · rw [hx] at herr
        cases herr
      · obtain ⟨t', e', h1, h2⟩ := ih (setKey res x v0) hmem
        exact ⟨t', e', h1, by simp [batchGo, hx, h2]⟩

theorem batchGo_ok {α : Type} (f : Nat → Except PyErr α) (ids : List Nat)
    (res : List (Nat × α)) (hok : ∀ t ∈ ids, ∃ v, f t = .ok v) :
    ∃ m, batchGo f res ids = .ok m ∧
      (∀ t, (lookup res t).isSome → (lookup m t).isSome) ∧
      (∀ t ∈ ids, (lookup m t).isSome) := by
  induction ids generalizing res with
  | nil => exact ⟨res, rfl, fun t h => h, by simp⟩
  | cons x xs ih =>
    obtain ⟨v, hv⟩ := hok x (by simp)
    obtain ⟨m, h1, h2, h3⟩ := ih (setKey res x v) (fun t ht => hok t (by simp [ht]))
    refine ⟨m, by simp [batchGo, hv, h1], ?_, ?_⟩
    · intro t ht
      apply h2
      by_cases hx : t = x
      · subst hx
        simp [lookup_setKey_self]
      · rwa [lookup_setKey_ne _ _ _ _ hx]
    · intro t ht
      rw [List.mem_cons] at ht
      rcases ht with rfl | ht
      · exact h2 t (by simp [lookup_setKey_self])
      · exact h3 t ht

theorem batchGo_keys {α : Type} (f : Nat → Except PyErr α) (ids : List Nat)
    (res m : List (Nat × α)) (h : batchGo f res ids = .ok m) (hnd : (keys res).Nodup) :
    (keys m).Nodup ∧ ∀ t, t ∈ keys m ↔ t ∈ keys res ∨ t ∈ ids := by
  induction ids generalizing res with
  | nil =>
    cases h
    exact ⟨hnd, by simp⟩
  | cons x xs ih =>
    rcases hx : f x with e0 | v0 <;> rw [batchGo, hx] at h
    · cases h
    · by_cases hmem : x ∈ keys res
      · obtain ⟨h1, h2⟩ := ih (setKey res x v0) h (by rwa [keys_setKey_of_mem _ _ _ hmem])
        refine ⟨h1, fun t => ?_⟩
        rw [h2 t, keys_setKey_of_mem _ _ _ hmem]
        simp only [List.mem_cons]
        constructor
        · rintro (h3 | h3)
          · exact Or.inl h3
          · exact Or.inr (Or.inr h3)
        · rintro (h3 | rfl | h3)
          · exact Or.inl h3
          · exact Or.inl hmem
          · exact Or.inr h3
      · have hk := keys_setKey_of_not_mem res x v0 hmem
        obtain ⟨h1, h2⟩ := ih (setKey res x v0) h (by
          rw [hk]
          exact List.Nodup.append hnd (by simp) (by simpa using fun h' => hmem h'))
        refine ⟨h1, fun t => ?_⟩
        rw [h2 t, hk]
        simp only [List.mem_append, List.mem_singleton, List.mem_cons]
        tauto

theorem batchGo_dropKey {α : Type} (f : Nat → Except PyErr α) (x : Nat) (v : α)
    (ids : List Nat) (res : List (Nat × α)) (hx : f x = .ok v)
    (hres : lookup res x = some v) :
    batchGo f res ids = batchGo f res (ids.filter (fun t => t ≠ x)) := by
  induction ids generalizing res with
  | nil => rfl
  | cons y ys ih =>
    by_cases hy : y = x
    · subst hy
      have : setKey res y v = res := setKey_eq_of_lookup_eq res y v hres
      simp [batchGo, hx, this, ih res hres, List.filter]
    · rcases hfy : f y with e0 | w
      · simp [batchGo, hfy, List.filter, hy]
      · have : lookup (setKey res y w) x = some v := by
          rw [lookup_setKey_ne _ _ _ _ (fun h => hy h.symm)]
          exact hres
        simp [batchGo, hfy, List.filter, hy, ih (setKey res y w) this]

theorem firstDedupAux_perm_seen (ids : List Nat) :
    ∀ s1 s2 : List Nat, (∀ t, t ∈ s1 ↔ t ∈ s2) →
      firstDedupAux s1 ids = firstDedupAux s2 ids := by
  induction ids with
  | nil => intro s1 s2 _; rfl
  | cons x xs ih =>
    intro s1 s2 h
    by_cases hx : x ∈ s1
    · rw [firstDedupAux, firstDedupAux, if_pos hx, if_pos ((h x).mp hx)]
      exact ih s1 s2 h
    · rw [firstDedupAux, firstDedupAux, if_neg hx, if_neg (fun h' => hx ((h x).mpr h'))]
      rw [ih (x :: s1) (x :: s2) (by intro t; simp [h t])]

theorem batchGo_firstDedup {α : Type} (f : Nat → Except PyErr α) (ids : List Nat)
    (res : List (Nat × α)) (hres : ∀ t v, lookup res t = some v → f t = .ok v) :
    batchGo f res ids = batchGo f res (firstDedupAux (keys res) ids) := by
  induction ids generalizing res with
  | nil => rfl
  | cons x xs ih =>
    by_cases hmem : x ∈ keys res
    · have hsome := (mem_keys_iff_lookup_isSome res x).mp hmem
      rcases hv : lookup res x with _ | v
      · rw [hv] at hsome
        cases hsome
      · have hfx := hres x v hv
        have hset : setKey res x v = res := setKey_eq_of_lookup_eq res x v hv
        rw [firstDedupAux, if_pos hmem]
        calc batchGo f res (x :: xs)
            = batchGo f res xs := by simp [batchGo, hfx, hset]
          _ = batchGo f res (firstDedupAux (keys res) xs) := ih res hres
    · rcases hfx : f x with e0 | v
      · rw [firstDedupAux, if_neg hmem]
        simp [batchGo, hfx]
      · rw [firstDedupAux, if_neg hmem]
        rw [batchGo, hfx, batchGo, hfx]
        have hres' : ∀ t v', lookup (setKey res x v) t = some v' → f t = .ok v' := by
          intro t v' ht
          by_cases hxt : t = x
          · subst hxt
            rw [lookup_setKey_self] at ht
            cases ht
            exact hfx
          · rw [lookup_setKey_ne _ _ _ _ hxt] at ht
            exact hres t v' ht
        have hkeys : keys (setKey res x v) = keys res ++ [x] :=
          keys_setKey_of_not_mem res x v hmem
        calc batchGo f (setKey res x v) xs
            = batchGo f (setKey res x v) (firstDedupAux (keys (setKey res x v)) xs) :=
              ih (setKey res x v) hres'
          _ = batchGo f (setKey res x v) (firstDedupAux (x :: keys res) xs) := by
              rw [hkeys]
              congr 1
              apply firstDedupAux_perm_seen
              intro t
              simp [or_comm]


/-! ### Spec-side stream functions: append lemmas -/

theorem childrenOf_append (recs : List EdgeRec) (r : EdgeRec) (k : Nat) :
    childrenOf (recs ++ [r]) k
      = childrenOf recs k ++ (if r.parent = k then [r.taxid] else []) := by
  unfold childrenOf
  rw [List.filterMap_append]
  by_cases h : r.parent = k <;> simp [h]

theorem lastParent_append (recs : List EdgeRec) (r : EdgeRec) (k : Nat) :
    lastParent (recs ++ [r]) k
      = if r.taxid = k then some r.parent else lastParent recs k := by
  unfold lastParent
  rw [List.foldl_append]
  rfl

theorem appearsIn_append (recs : List EdgeRec) (r : EdgeRec) (k : Nat) :
    appearsIn (recs ++ [r]) k ↔ appearsIn recs k ∨ (r.taxid = k ∨ r.parent = k) := by
  unfold appearsIn
  constructor
  · rintro ⟨r2, hr2, hor⟩
    rw [List.mem_append] at hr2
    rcases hr2 with h | h
    · exact Or.inl ⟨r2, h, hor⟩
    · rw [List.mem_singleton] at h
      subst h
      exact Or.inr hor
  · rintro (⟨r2, hr2, hor⟩ | hor)
    · exact ⟨r2, by simp [hr2], hor⟩
    · exact ⟨r, by simp, hor⟩

theorem childrenOf_eq_nil (recs : List EdgeRec) (k : Nat) (h : ¬ appearsIn recs k) :
    childrenOf recs k = [] := by
  unfold childrenOf
  rw [List.filterMap_eq_nil_iff]
  intro r hr
  by_cases hp : r.parent = k
  · exact absurd ⟨r, hr, Or.inr hp⟩ h
  · simp [hp]

theorem lastParent_acc_const (recs : List EdgeRec) (k : Nat)
    (h : ∀ r ∈ recs, r.taxid ≠ k) :
    ∀ acc : Option Nat,
      recs.foldl (fun acc r => if r.taxid = k then some r.parent else acc) acc = acc := by
  induction recs with
  | nil => intro acc; rfl
  | cons r rs ih =>
    intro acc
    rw [List.foldl_cons, if_neg (h r (by simp))]
    exact ih (fun r2 hr2 => h r2 (by simp [hr2])) acc

theorem lastParent_eq_none (recs : List EdgeRec) (k : Nat)
    (h : ∀ r ∈ recs, r.taxid ≠ k) : lastParent recs k = none :=
  lastParent_acc_const recs k h none

theorem lastParent_acc_spec (recs : List EdgeRec) (k : Nat) :
    ∀ acc : Option Nat, ∀ p : Nat,
      recs.foldl (fun acc r => if r.taxid = k then some r.parent else acc) acc = some p →
      (∃ r ∈ recs, r.taxid = k ∧ r.parent = p) ∨ acc = some p := by
  induction recs with
  | nil => exact fun acc p h => Or.inr h
  | cons r rs ih =>
    intro acc p h
    rw [List.foldl_cons] at h
    by_cases ht : r.taxid = k
    · rw [if_pos ht] at h
      rcases ih (some r.parent) p h with h2 | h2
      · obtain ⟨r2, h3, h4⟩ := h2
        exact Or.inl ⟨r2, by simp [h3], h4⟩
      · cases h2
        exact Or.inl ⟨r, by simp, ht, rfl⟩
    · rw [if_neg ht] at h
      rcases ih acc p h with h2 | h2
      · obtain ⟨r2, h3, h4⟩ := h2
        exact Or.inl ⟨r2, by simp [h3], h4⟩
      · exact Or.inr h2

theorem lastParent_spec (recs : List EdgeRec) (k p : Nat)
    (h : lastParent recs k = some p) : ∃ r ∈ recs, r.taxid = k ∧ r.parent = p := by
  rcases lastParent_acc_spec recs k none p h with h2 | h2
  · exact h2
  · cases h2

theorem lastParent_acc_isSome (recs : List EdgeRec) (k : Nat) :
    ∀ acc : Option Nat, acc.isSome →
      (recs.foldl (fun acc r => if r.taxid = k then some r.parent else acc) acc).isSome := by
  induction recs with
  | nil => exact fun acc h => h
  | cons r rs ih =>
    intro acc hacc
    rw [List.foldl_cons]
    by_cases ht : r.taxid = k
    · rw [if_pos ht]
      exact ih (some r.parent) rfl
    · rw [if_neg ht]
      exact ih acc hacc

theorem lastParent_isSome (recs : List EdgeRec) (k : Nat) (r0 : EdgeRec)
    (h0 : r0 ∈ recs) (ht : r0.taxid = k) : (lastParent recs k).isSome := by
  induction recs with
  | nil => cases h0
  | cons r rs ih =>
    unfold lastParent
    rw [List.foldl_cons]
    rw [List.mem_cons] at h0
    rcases h0 with rfl | h0
    · rw [if_pos ht]
      exact lastParent_acc_isSome rs k (some r0.parent) rfl
    · by_cases ht2 : r.taxid = k
      · rw [if_pos ht2]
        exact lastParent_acc_isSome rs k (some r.parent) rfl
      · rw [if_neg ht2]
        exact ih h0

theorem mem_childrenOf (recs : List EdgeRec) (k x : Nat) :
    x ∈ childrenOf recs k ↔ ∃ r ∈ recs, r.taxid = x ∧ r.parent = k := by
  unfold childrenOf
  rw [List.mem_filterMap]
  constructor
  · rintro ⟨r, hr, h⟩
    by_cases hp : r.parent = k
    · rw [if_pos hp] at h
      cases h
      exact ⟨r, hr, rfl, hp⟩
    · rw [if_neg hp] at h
      cases h
  · rintro ⟨r, hr, h1, h2⟩
    exact ⟨r, hr, by rw [if_pos h2, h1]⟩

/-! ### The construction invariant -/

theorem lookup_setKey_isSome {α : Type} (m : List (Nat × α)) (k0 k : Nat) (v : α) :
    (lookup (setKey m k0 v) k).isSome ↔ k = k0 ∨ (lookup m k).isSome := by
  by_cases h : k = k0
  · subst h
    simp [lookup_setKey_self]
  · rw [lookup_setKey_ne _ _ _ _ h]
    simp [h]

theorem attachToParent_inv (P : List EdgeRec) (r : EdgeRec) (names1 names2 : Names)
    (dic : Dic) (node1 : Node) (dic2 : Dic)
    (hI1 : ∀ k n, lookup dic k = some n →
        n.children = childrenOf P k ∧ n.parent = lastParent P k)
    (hI2 : ∀ k, (lookup dic k).isSome ↔ appearsIn P k)
    (hc1 : node1.children = childrenOf P r.taxid)
    (hp1 : node1.parent = some r.parent)
    (h : attachToParent names1 (setKey dic r.taxid node1) r = .ok (names2, dic2)) :
    (∀ k n, lookup dic2 k = some n →
        n.children = childrenOf (P ++ [r]) k ∧ n.parent = lastParent (P ++ [r]) k) ∧
    (∀ k, (lookup dic2 k).isSome ↔ appearsIn (P ++ [r]) k) := by
  have hmem : ∀ k, (lookup (setKey dic r.taxid node1) k).isSome ↔
      k = r.taxid ∨ appearsIn P k := by
    intro k
    rw [lookup_setKey_isSome, hI2]
  unfold attachToParent at h
  rcases hp : lookup (setKey dic r.taxid node1) r.parent with _ | pn <;> rw [hp] at h
  · -- placeholder-parent branch: parent key absent even after step 1
    rcases hn : lookup names1 r.parent with _ | nm <;> rw [hn] at h
    · cases h
    · cases h
      have hne : r.parent ≠ r.taxid := by
        intro hq
        rw [hq, lookup_setKey_self] at hp
        cases hp
      have hdicp : lookup dic r.parent = none := by
        rw [lookup_setKey_ne _ _ _ _ hne] at hp
        exact hp
      have hnap : ¬ appearsIn P r.parent := by
        rw [← hI2, hdicp]
        simp
      constructor
      · intro k n hk
        by_cases hkp : k = r.parent
        · subst hkp
          rw [lookup_setKey_self] at hk
          cases hk
          constructor
          · simp [childrenOf_append, childrenOf_eq_nil P r.parent hnap]
          · rw [lastParent_append, if_neg (fun hq => hne hq.symm), lastParent_eq_none]
            intro r2 hr2 hq
            exact hnap ⟨r2, hr2, Or.inl hq⟩
        · rw [lookup_setKey_ne _ _ _ _ hkp] at hk
          by_cases hkt : k = r.taxid
          · subst hkt
            rw [lookup_setKey_self] at hk
            cases hk
            constructor
            · rw [childrenOf_append, if_neg (fun hq => hkp hq.symm)]
              simp [hc1]
            · rw [lastParent_append, if_pos rfl, hp1]
          · rw [lookup_setKey_ne _ _ _ _ hkt] at hk
            obtain ⟨hx1, hx2⟩ := hI1 k n hk
            constructor
            · rw [childrenOf_append, if_neg (fun hq => hkp hq.symm)]
              simp [hx1]
            · rw [lastParent_append, if_neg (fun hq => hkt hq.symm), hx2]
      · intro k
        rw [lookup_setKey_isSome, hmem, appearsIn_append]
        constructor
        · rintro (rfl | rfl | hq)
          · exact Or.inr (Or.inr rfl)
          · exact Or.inr (Or.inl rfl)
          · exact Or.inl hq
        · rintro (hq | hq | hq)
          · exact Or.inr (Or.inr hq)
          · exact Or.inr (Or.inl hq.symm)
          · exact Or.inl hq.symm
  · -- parent already present: append to its child list
    cases h
    constructor
    · intro k n hk
      by_cases hkp : k = r.parent
      · subst hkp
        rw [lookup_setKey_self] at hk
        cases hk
        by_cases hkt : r.parent = r.taxid
        · -- the record is its own parent (the raw root record)
          rw [hkt, lookup_setKey_self] at hp
          cases hp
          constructor
          · rw [childrenOf_append, if_pos rfl, hc1, hkt]
          · rw [lastParent_append, if_pos hkt.symm, hp1]
        · rw [lookup_setKey_ne _ _ _ _ hkt] at hp
          obtain ⟨hx1, hx2⟩ := hI1 r.parent pn hp
          constructor
          · rw [childrenOf_append, if_pos rfl, hx1]
          · rw [lastParent_append, if_neg (fun hq => hkt hq.symm), hx2]
      · rw [lookup_setKey_ne _ _ _ _ hkp] at hk
        by_cases hkt : k = r.taxid
        · subst hkt
          rw [lookup_setKey_self] at hk
          cases hk
          constructor
          · rw [childrenOf_append, if_neg (fun hq => hkp hq.symm)]
            simp [hc1]
          · rw [lastParent_append, if_pos rfl, hp1]
        · rw [lookup_setKey_ne _ _ _ _ hkt] at hk
          obtain ⟨hx1, hx2⟩ := hI1 k n hk
          constructor
          · rw [childrenOf_append, if_neg (fun hq => hkp hq.symm)]
            simp [hx1]
          · rw [lastParent_append, if_neg (fun hq => hkt hq.symm), hx2]
    · intro k
      rw [lookup_setKey_isSome, hmem, appearsIn_append]
      constructor
      · rintro (rfl | rfl | hq)
        · exact Or.inr (Or.inr rfl)
        · exact Or.inr (Or.inl rfl)
        · exact Or.inl hq
      · rintro (hq | hq | hq)
        · exact Or.inr (Or.inr hq)
        · exact Or.inr (Or.inl hq.symm)
        · exact Or.inl hq.symm

theorem processEdgeRec_inv (P : List EdgeRec) (r : EdgeRec) (names names2 : Names)
    (dic dic2 : Dic)
    (hI1 : ∀ k n, lookup dic k = some n →
        n.children = childrenOf P k ∧ n.parent = lastParent P k)
    (hI2 : ∀ k, (lookup dic k).isSome ↔ appearsIn P k)
    (h : processEdgeRec (names, dic) r = .ok (names2, dic2)) :
    (∀ k n, lookup dic2 k = some n →
        n.children = childrenOf (P ++ [r]) k ∧ n.parent = lastParent (P ++ [r]) k) ∧
    (∀ k, (lookup dic2 k).isSome ↔ appearsIn (P ++ [r]) k) := by
  unfold processEdgeRec at h
  rcases h1 : promoteOrCreate names dic r with e | st1 <;> rw [h1] at h
  · cases h
  · unfold promoteOrCreate at h1
    rcases hx : lookup dic r.taxid with _ | n0 <;> rw [hx] at h1
    · rcases hn : lookup names r.taxid with _ | nm <;> rw [hn] at h1
      · cases h1
      · cases h1
        refine attachToParent_inv P r _ names2 dic ⟨nm, some r.rank, some r.parent, []⟩
          dic2 hI1 hI2 ?_ rfl h
        rw [childrenOf_eq_nil]
        rw [← hI2, hx]
        simp
    · cases h1
      obtain ⟨hx1, hx2⟩ := hI1 r.taxid n0 hx
      exact attachToParent_inv P r names names2 dic
        { n0 with rank := some r.rank, parent := some r.parent } dic2 hI1 hI2 hx1 rfl h

theorem consumeRecords_inv (todo : List EdgeRec) :
    ∀ (P : List EdgeRec) (names names2 : Names) (dic dic2 : Dic),
      (∀ k n, lookup dic k = some n →
          n.children = childrenOf P k ∧ n.parent = lastParent P k) →
      (∀ k, (lookup dic k).isSome ↔ appearsIn P k) →
      consumeRecords (names, dic) todo = .ok (names2, dic2) →
      (∀ k n, lookup dic2 k = some n →
          n.children = childrenOf (P ++ todo) k ∧ n.parent = lastParent (P ++ todo) k) ∧
      (∀ k, (lookup dic2 k).isSome ↔ appearsIn (P ++ todo) k) := by
  induction todo with
  | nil =>
    intro P names names2 dic dic2 hI1 hI2 h
    cases h
    constructor
    · simpa using hI1
    · simpa using hI2
  | cons r rs ih =>
    intro P names names2 dic dic2 hI1 hI2 h
    rw [consumeRecords] at h
    rcases h1 : processEdgeRec (names, dic) r with e | st1 <;> rw [h1] at h
    · cases h
    · obtain ⟨nms1, dic1⟩ := st1
      obtain ⟨hJ1, hJ2⟩ := processEdgeRec_inv P r names nms1 dic dic1 hI1 hI2 h1
      have h5 : consumeRecords (nms1, dic1) rs = .ok (names2, dic2) := h
      have h6 := ih (P ++ [r]) nms1 names2 dic1 dic2 hJ1 hJ2 h5
      rwa [List.append_assoc, List.singleton_append] at h6

theorem build_characterization (names : Names) (recs : List EdgeRec) (dic : Dic)
    (h : buildFromRecords names recs = .ok dic) :
    (∀ k n, k ≠ 1 → lookup dic k = some n →
        n.children = childrenOf recs k ∧ n.parent = lastParent recs k) ∧
    (∀ n, lookup dic 1 = some n →
        n.children = (childrenOf recs 1).erase 1 ∧ n.parent = none) ∧
    (∀ k, (lookup dic k).isSome ↔ appearsIn recs k) := by
  unfold buildFromRecords at h
  rcases h1 : consumeRecords (names, []) recs with e | st1 <;> rw [h1] at h
  · cases h
  · obtain ⟨nms1, dic1⟩ := st1
    obtain ⟨hJ1, hJ2⟩ := consumeRecords_inv recs [] names nms1 [] dic1
      (by intro k n hk; cases hk)
      (by
        intro k
        unfold appearsIn
        simp [lookup])
      h1
    rw [List.nil_append] at hJ1 hJ2
    have h4 : finalizeRoot dic1 = .ok dic := h
    unfold finalizeRoot at h4
    rcases h2 : lookup dic1 1 with _ | n1 <;> rw [h2] at h4
    · cases h4
    · have h5 : (if 1 ∈ n1.children then
          Except.ok (setKey dic1 1
            { name := n1.name, rank := n1.rank, parent := none,
              children := n1.children.erase 1 })
        else
          (Except.error (PyErr.valueError "list.remove(x): x not in list") :
            Except PyErr Dic)) = Except.ok dic := h4
      by_cases h3 : 1 ∈ n1.children
      · rw [if_pos h3] at h5
        cases h5
        obtain ⟨hc, hpar⟩ := hJ1 1 n1 h2
        refine ⟨?_, ?_, ?_⟩
        · intro k n hk1 hk
          rw [lookup_setKey_ne _ _ _ _ hk1] at hk
          exact hJ1 k n hk
        · intro n hk
          rw [lookup_setKey_self] at hk
          cases hk
          exact ⟨by rw [hc], rfl⟩
        · intro k
          rw [lookup_setKey_isSome, hJ2]
          constructor
          · rintro (rfl | hq)
            · rw [← hJ2]
              simp [h2]
            · exact hq
          · exact fun hq => Or.inr hq
      · rw [if_neg h3] at h5
        cases h5


/-! ### Counting children -/

theorem count_childrenOf (recs : List EdgeRec) (k x : Nat) :
    (childrenOf recs k).count x
      = recs.countP (fun r => decide (r.taxid = x) && decide (r.parent = k)) := by
  induction recs with
  | nil => rfl
  | cons r rs ih =>
    unfold childrenOf at *
    rw [List.filterMap_cons, List.countP_cons]
    by_cases hp : r.parent = k
    · by_cases ht : r.taxid = x
      · simp [hp, ht, List.count_cons, ih]
      · simp [hp, ht, List.count_cons, ih]
    · simp [hp, ih]

theorem countP_taxid_le_one (recs : List EdgeRec) (hnd : (recs.map (·.taxid)).Nodup)
    (p : EdgeRec → Bool) (x : Nat) (hp : ∀ r, p r = true → r.taxid = x) :
    recs.countP p ≤ 1 := by
  induction recs with
  | nil => simp
  | cons r rs ih =>
    rw [List.map_cons, List.nodup_cons] at hnd
    rw [List.countP_cons]
    by_cases hr : p r = true
    · have hx : r.taxid = x := hp r hr
      have hz : rs.countP p = 0 := by
        rw [List.countP_eq_zero]
        intro a ha hpa
        exact hnd.1 (by
          rw [hx, ← hp a hpa]
          exact List.mem_map_of_mem _ ha)
      simp [hr, hz]
    · simpa [hr] using ih hnd.2

theorem rec_taxid_unique (recs : List EdgeRec) (hnd : (recs.map (·.taxid)).Nodup)
    (r1 r2 : EdgeRec) (h1 : r1 ∈ recs) (h2 : r2 ∈ recs) (ht : r1.taxid = r2.taxid) :
    r1 = r2 :=
  List.inj_on_of_nodup_map hnd h1 h2 ht

/-! ### Claims C6 and C7 -/

/-- Counterexample to C6 as literally stated: an edge stream that does encode
the root as its own parent but in which id 3 never receives its own edge
record leaves the unpromoted placeholder 3 with no parent, so the built tree
has two parentless nodes (1 and 3), not exactly one. -/
theorem c6_counterexample :
    ∃ d, buildFromRecords unpromotedNames unpromotedRecs = .ok d ∧
      (∃ r ∈ unpromotedRecs, r.taxid = 1 ∧ r.parent = 1) ∧
      ¬ (∀ k n, lookup d k = some n → n.parent = none → k = 1) := by
  refine ⟨_, rfl, ⟨⟨1, 1, "no rank"⟩, by decide, rfl, rfl⟩, fun hq => ?_⟩
  exact absurd (hq 3 ⟨"three", none, none, [2]⟩ rfl rfl) (by decide)


/-- C6: after construction from an edge stream in which every appearing id
receives exactly one edge record and the root record is the self-referencing
`(1, 1, ...)`, exactly one node of the mapping has no parent — the root, id 1
— and id 1 occurs in no node's child list (its raw self-loop entry having
been removed during finalization). -/
theorem c6_build_root_invariant (names : Names) (recs : List EdgeRec) (dic : Dic)
    (hnd : (recs.map (·.taxid)).Nodup)
    (hcov : ∀ r ∈ recs, ∃ r2 ∈ recs, r2.taxid = r.parent)
    (hroot : ∃ r ∈ recs, r.taxid = 1 ∧ r.parent = 1)
    (hb : buildFromRecords names recs = .ok dic) :
    (∃ n, lookup dic 1 = some n ∧ n.parent = none) ∧
    (∀ k n, lookup dic k = some n → n.parent = none → k = 1) ∧
    (∀ k n, lookup dic k = some n → 1 ∉ n.children) := by
  obtain ⟨hA, hB, hC⟩ := build_characterization names recs dic hb
  obtain ⟨r0, hr0, hr0t, hr0p⟩ := hroot
  have h1mem : (lookup dic 1).isSome := (hC 1).mpr ⟨r0, hr0, Or.inl hr0t⟩
  rcases hn1 : lookup dic 1 with _ | n1
  · rw [hn1] at h1mem
    cases h1mem
  obtain ⟨hc1, hp1⟩ := hB n1 hn1
  refine ⟨⟨n1, rfl, hp1⟩, ?_, ?_⟩
  · intro k n hk hpnone
    by_contra hk1
    obtain ⟨hck, hpk⟩ := hA k n hk1 hk
    have happ : appearsIn recs k := (hC k).mp (by simp [hk])
    obtain ⟨r2, hr2, hor⟩ := happ
    have htax : ∃ r3 ∈ recs, r3.taxid = k := by
      rcases hor with h | h
      · exact ⟨r2, hr2, h⟩
      · obtain ⟨r3, hr3, h3⟩ := hcov r2 hr2
        exact ⟨r3, hr3, by rw [h3, h]⟩
    obtain ⟨r3, hr3, h3⟩ := htax
    have hsome := lastParent_isSome recs k r3 hr3 h3
    rw [← hpk, hpnone] at hsome
    cases hsome
  · intro k n hk
    by_cases hk1 : k = 1
    · subst hk1
      obtain ⟨hc, _⟩ := hB n hk
      rw [hc]
      have hcount : (childrenOf recs 1).count 1 = 1 := by
        rw [count_childrenOf]
        refine le_antisymm ?_ ?_
        · refine countP_taxid_le_one recs hnd _ 1 (fun r hr => ?_)
          simp only [Bool.and_eq_true, decide_eq_true_eq] at hr
          exact hr.1
        · exact List.countP_pos_iff.mpr ⟨r0, hr0, by simp [hr0t, hr0p]⟩
      intro hmem
      have h0 : ((childrenOf recs 1).erase 1).count 1 = 0 := by
        rw [List.count_erase_self, hcount]
      have hpos := List.count_pos_iff.mpr hmem
      rw [h0] at hpos
      cases hpos
    · obtain ⟨hck, _⟩ := hA k n hk1 hk
      rw [hck]
      intro hmem
      rw [mem_childrenOf] at hmem
      obtain ⟨r2, hr2, h2t, h2p⟩ := hmem
      have heq : r2 = r0 := rec_taxid_unique recs hnd r2 r0 hr2 hr0 (by rw [h2t, hr0t])
      rw [heq, hr0p] at h2p
      exact hk1 h2p.symm

/-- Closed witness for `c6_build_root_invariant` at the concrete E. coli
fixture. -/
theorem c6_build_root_invariant_witness :
    (∃ n, lookup ecoliDic 1 = some n ∧ n.parent = none) ∧
    (∀ k n, lookup ecoliDic k = some n → n.parent = none → k = 1) ∧
    (∀ k n, lookup ecoliDic k = some n → 1 ∉ n.children) :=
  c6_build_root_invariant ecoliNames ecoliRecs ecoliDic (by decide) (by decide)
    (by decide) rfl

/-- C7: after construction from a stream with exactly one edge record per id,
every non-root node's id occurs exactly once in the child list returned by
`getChildren` for its parent. -/
theorem c7_round_trip (names : Names) (recs : List EdgeRec) (dic : Dic)
    (k p : Nat) (n : Node)
    (hnd : (recs.map (·.taxid)).Nodup)
    (hb : buildFromRecords names recs = .ok dic)
    (hk : lookup dic k = some n) (hp : n.parent = some p) :
    ∃ cs, getChildren dic [p] = .ok [(p, cs)] ∧ cs.count k = 1 := by
  obtain ⟨hA, hB, hC⟩ := build_characterization names recs dic hb
  have hk1 : k ≠ 1 := by
    intro hq
    subst hq
    obtain ⟨_, hpar⟩ := hB n hk
    rw [hpar] at hp
    cases hp
  obtain ⟨hck, hpk⟩ := hA k n hk1 hk
  have hlp : lastParent recs k = some p := by rw [← hpk, hp]
  obtain ⟨rk, hrk, hrkt, hrkp⟩ := lastParent_spec recs k p hlp
  have hpmem : (lookup dic p).isSome := (hC p).mpr ⟨rk, hrk, Or.inr hrkp⟩
  rcases hnp : lookup dic p with _ | np
  · rw [hnp] at hpmem
    cases hpmem
  have hcount : (childrenOf recs p).count k = 1 := by
    rw [count_childrenOf]
    refine le_antisymm ?_ ?_
    · refine countP_taxid_le_one recs hnd _ k (fun r hr => ?_)
      simp only [Bool.and_eq_true, decide_eq_true_eq] at hr
      exact hr.1
    · exact List.countP_pos_iff.mpr ⟨rk, hrk, by simp [hrkt, hrkp]⟩
  have hcount2 : np.children.count k = 1 := by
    by_cases hq : p = 1
    · subst hq
      obtain ⟨hc, _⟩ := hB np hnp
      rw [hc, List.count_erase_of_ne hk1, hcount]
    · obtain ⟨hc, _⟩ := hA p np hq hnp
      rw [hc, hcount]
  refine ⟨np.children, ?_, hcount2⟩
  simp [getChildren, batchQuery, batchGo, hnp, setKey]

/-- Closed witness for `c7_round_trip`: node 562's id appears exactly once in
its parent 561's child list. -/
theorem c7_round_trip_witness :
    ∃ cs, getChildren ecoliDic [561] = .ok [(561, cs)] ∧ cs.count 562 = 1 :=
  c7_round_trip ecoliNames ecoliRecs ecoliDic 562 561
    ⟨"Escherichia coli", some "species", some 561, []⟩
    (by decide) rfl rfl rfl


/-! ### Claim C1: order-insensitive construction -/

/-- C1: feeding the edge records (561,543,genus), (543,1,family),
(562,561,species) together with the self-referencing root record
(1,1,no rank) out of order produces the same final tree mapping as feeding
them in sorted order; construction is the single fold `consumeRecords`
followed by root finalization — one linear pass, no second pass. -/
theorem c1_order_insensitive :
    ∃ dA dB : Dic,
      buildFromRecords ecoliNames recsOutOfOrder = .ok dA ∧
      buildFromRecords ecoliNames ecoliRecs = .ok dB ∧
      ∀ k, lookup dA k = lookup dB k := by
  refine ⟨outOfOrderDic, ecoliDic, rfl, rfl, mapEqB_lookup_eq _ _ (by decide)⟩

/-! ### Claim C2: the ascendant walk on an invariant-violating tree -/

/-- C2 (code bug): the builder accepts the cyclic stream `cyclicRecs`, and on
the resulting tree the parent walk of `getAscendantsWithRanksAndNames([2])`
never terminates: for every fuel bound it is still running (`.noFuel`),
instead of failing as the spec requires. -/
theorem c2_cycle_loops_forever :
    buildFromRecords cyclicNames cyclicRecs = .ok cyclicDic ∧
    ∀ fuel, getAscendantsWithRanksAndNames cyclicDic fuel [2] false
      = .error .noFuel := by
  refine ⟨rfl, ?_⟩
  have key : ∀ fuel, lineageFrom cyclicDic fuel 2 = .error .noFuel ∧
      lineageFrom cyclicDic fuel 3 = .error .noFuel := by
    intro fuel
    induction fuel with
    | zero => exact ⟨rfl, rfl⟩
    | succ n ih =>
      constructor
      · have hstep : lineageFrom cyclicDic (n + 1) 2
            = (match lineageFrom cyclicDic n 3 with
               | .error e => .error e
               | .ok rest => .ok (⟨2, some "a", "two"⟩ :: rest)) := rfl
        rw [hstep, ih.2]
      · have hstep : lineageFrom cyclicDic (n + 1) 3
            = (match lineageFrom cyclicDic n 2 with
               | .error e => .error e
               | .ok rest => .ok (⟨3, some "b", "three"⟩ :: rest)) := rfl
        rw [hstep, ih.1]
  intro fuel
  have h2 := (key fuel).1
  unfold getAscendantsWithRanksAndNames batchQuery
  rw [batchGo]
  simp [getAscOne, h2]

/-! ### Claims C4 and C5: descendant and leaf enumeration -/

/-- C4 (code bug): on the chain 1 → 543 → 561 → 562, `getDescendants` does
return the preorder sequence for the internal node 543, but raises
`TypeError` for the childless node 562 (`flatten` iterates a bare int);
`getDescendantsWithRanksAndNames` works only for the depth-1 subtree of 561
and raises `TypeError` both for 543 (it iterates the unflattened nested
result and uses a nested list as a dict key) and for the leaf 562. -/
theorem c4_descendants_bugs :
    buildFromRecords ecoliNames ecoliRecs = .ok ecoliDic ∧
    getDescendants ecoliDic 10 [543] = .ok [(543, [543, 561, 562])] ∧
    getDescendants ecoliDic 10 [562] = .error .typeError ∧
    getDescendantsWithRanksAndNames ecoliDic 10 [561] =
      .ok [(561, [⟨561, some "genus", "Escherichia"⟩,
                  ⟨562, some "species", "Escherichia coli"⟩])] ∧
    getDescendantsWithRanksAndNames ecoliDic 10 [543] = .error .typeError ∧
    getDescendantsWithRanksAndNames ecoliDic 10 [562] = .error .typeError :=
  ⟨rfl, rfl, rfl, rfl, rfl, rfl⟩

/-- C5 (code bug): on the same chain, `getLeaves(543)` returns `[562]`, which
does equal the childless ids among `getDescendants([543])[543]`; and
`getLeaves(562) = [562]` (a childless node is its own sole leaf); but for the
childless id 562 the claimed set equality fails because
`getDescendants([562])` raises `TypeError` instead of returning `[562]`. -/
theorem c5_leaves_vs_descendants :
    getLeaves ecoliDic 10 543 = .ok [562] ∧
    getDescendants ecoliDic 10 [543] = .ok [(543, [543, 561, 562])] ∧
    [543, 561, 562].filter
      (fun t => decide ((lookup ecoliDic t).map Node.children = some [])) = [562] ∧
    getLeaves ecoliDic 10 562 = .ok [562] ∧
    getDescendants ecoliDic 10 [562] = .error .typeError :=
  ⟨rfl, rfl, by decide, rfl, rfl⟩

/-! ### Claim C3: the standard-rank filter -/

/-- C3: whenever `getAscendantsWithRanksAndNames` with `only_std_ranks` set
returns a lineage for a taxid, every entry of the result has one of the seven
standard ranks, except that when the first entry of the unfiltered lineage
(the queried node itself) has rank "no rank" it is kept and prepended as the
first element (and all later entries are standard). -/
theorem c3_std_rank_filter (dic : Dic) (fuel taxid : Nat) (res : List LNode)
    (h : getAscOne dic fuel taxid true = .ok res) :
    ∃ lin h0, lineageFrom dic fuel taxid = .ok lin ∧ lin.head? = some h0 ∧
      (h0.rank = some "no rank" → res.head? = some h0 ∧
        ∀ e ∈ res.tail, stdRankB e.rank = true) ∧
      (h0.rank ≠ some "no rank" → ∀ e ∈ res, stdRankB e.rank = true) := by
  unfold getAscOne at h
  rcases h1 : lineageFrom dic fuel taxid with e | lin <;> rw [h1] at h
  · cases h
  · have h4 : (match lin.head? with
        | none => (Except.error PyErr.indexError : Except PyErr (List LNode))
        | some h0 =>
            if h0.rank = some "no rank"
            then Except.ok (h0 :: lin.filter (fun lvl => stdRankB lvl.rank))
            else Except.ok (lin.filter (fun lvl => stdRankB lvl.rank)))
        = Except.ok res := h
    rcases h2 : lin.head? with _ | h0 <;> rw [h2] at h4
    · cases h4
    · have h5 : (if h0.rank = some "no rank"
          then Except.ok (h0 :: lin.filter (fun lvl => stdRankB lvl.rank))
          else (Except.ok (lin.filter (fun lvl => stdRankB lvl.rank)) :
            Except PyErr (List LNode)))
          = Except.ok res := h4
      by_cases h3 : h0.rank = some "no rank"
      · rw [if_pos h3] at h5
        cases h5
        refine ⟨lin, h0, rfl, h2, fun _ => ⟨rfl, fun e he => ?_⟩,
          fun hne => absurd h3 hne⟩
        exact (List.mem_filter.mp he).2
      · rw [if_neg h3] at h5
        cases h5
        refine ⟨lin, h0, rfl, h2, fun hc => absurd hc h3, fun _ e he => ?_⟩
        exact (List.mem_filter.mp he).2

/-- Closed witness for `c3_std_rank_filter` at taxid 562 of the E. coli
fixture. -/
theorem c3_std_rank_filter_witness :
    ∃ lin h0, lineageFrom ecoliDic 10 562 = .ok lin ∧ lin.head? = some h0 ∧
      (h0.rank = some "no rank" →
        (([⟨562, some "species", "Escherichia coli"⟩,
           ⟨561, some "genus", "Escherichia"⟩,
           ⟨543, some "family", "Enterobacteriaceae"⟩] : List LNode).head? = some h0 ∧
        ∀ e ∈ ([⟨562, some "species", "Escherichia coli"⟩,
           ⟨561, some "genus", "Escherichia"⟩,
           ⟨543, some "family", "Enterobacteriaceae"⟩] : List LNode).tail,
          stdRankB e.rank = true)) ∧
      (h0.rank ≠ some "no rank" →
        ∀ e ∈ ([⟨562, some "species", "Escherichia coli"⟩,
           ⟨561, some "genus", "Escherichia"⟩,
           ⟨543, some "family", "Enterobacteriaceae"⟩] : List LNode),
          stdRankB e.rank = true) :=
  c3_std_rank_filter ecoliDic 10 562
    [⟨562, some "species", "Escherichia coli"⟩,
     ⟨561, some "genus", "Escherichia"⟩,
     ⟨543, some "family", "Enterobacteriaceae"⟩] rfl

/-! ### Claim C8: point queries on absent ids -/

theorem lookupQuery_error (dic : Dic) {α : Type} (g : Node → α) (ids : List Nat)
    (t : Nat) (hmem : t ∈ ids) (hnone : lookup dic t = none) :
    ∃ t2, lookup dic t2 = none ∧
      batchQuery (fun t3 =>
        match lookup dic t3 with
        | none => .error (.keyError t3)
        | some n => .ok (g n)) ids = .error (.keyError t2) := by
  obtain ⟨t2, e2, hf, hres⟩ := batchGo_error
    (fun t3 => match lookup dic t3 with
      | none => .error (.keyError t3)
      | some n => .ok (g n)) ids [] t (.keyError t) hmem (by simp [hnone])
  have hf2 : (match lookup dic t2 with
      | none => (Except.error (PyErr.keyError t2) : Except PyErr α)
      | some n => .ok (g n)) = .error e2 := hf
  rcases hl : lookup dic t2 with _ | n2 <;> rw [hl] at hf2
  · cases hf2
    exact ⟨t2, hl, hres⟩
  · cases hf2

theorem lookupQuery_ok (dic : Dic) {α : Type} (g : Node → α) (ids : List Nat)
    (hall : ∀ t ∈ ids, (lookup dic t).isSome) :
    ∃ m, batchQuery (fun t3 =>
        match lookup dic t3 with
        | none => .error (.keyError t3)
        | some n => .ok (g n)) ids = .ok m ∧ ∀ t ∈ ids, (lookup m t).isSome := by
  obtain ⟨m, h1, _, h3⟩ := batchGo_ok
    (fun t3 => match lookup dic t3 with
      | none => .error (.keyError t3)
      | some n => .ok (g n)) ids []
    (by
      intro t ht
      rcases hl : lookup dic t with _ | n
      · have hc := hall t ht
        rw [hl] at hc
        cases hc
      · exact ⟨g n, by simp [hl]⟩)
  exact ⟨m, h1, h3⟩

/-- C8: for each point query (`getParent`, `getRank`, `getName`,
`getChildren`), an input collection containing an absent id makes the whole
call fail with a `KeyError` (the spec's `UnknownTaxonError`) — no partial
mapping is returned — while a collection of only present ids yields a mapping
with one result per input id. -/
theorem c8_point_queries (dic : Dic) (ids : List Nat) :
    ((∃ t ∈ ids, lookup dic t = none) →
      (∃ t, lookup dic t = none ∧ getParent dic ids = .error (.keyError t)) ∧
      (∃ t, lookup dic t = none ∧ getRank dic ids = .error (.keyError t)) ∧
      (∃ t, lookup dic t = none ∧ getName dic ids = .error (.keyError t)) ∧
      (∃ t, lookup dic t = none ∧ getChildren dic ids = .error (.keyError t))) ∧
    ((∀ t ∈ ids, (lookup dic t).isSome) →
      (∃ m, getParent dic ids = .ok m ∧ ∀ t ∈ ids, (lookup m t).isSome) ∧
      (∃ m, getRank dic ids = .ok m ∧ ∀ t ∈ ids, (lookup m t).isSome) ∧
      (∃ m, getName dic ids = .ok m ∧ ∀ t ∈ ids, (lookup m t).isSome) ∧
      (∃ m, getChildren dic ids = .ok m ∧ ∀ t ∈ ids, (lookup m t).isSome)) := by
  constructor
  · rintro ⟨t, hmem, hnone⟩
    exact ⟨lookupQuery_error dic (fun n => n.parent) ids t hmem hnone,
      lookupQuery_error dic (fun n => n.rank) ids t hmem hnone,
      lookupQuery_error dic (fun n => n.name) ids t hmem hnone,
      lookupQuery_error dic (fun n => n.children) ids t hmem hnone⟩
  · intro hall
    exact ⟨lookupQuery_ok dic (fun n => n.parent) ids hall,
      lookupQuery_ok dic (fun n => n.rank) ids hall,
      lookupQuery_ok dic (fun n => n.name) ids hall,
      lookupQuery_ok dic (fun n => n.children) ids hall⟩

/-- Closed witness for `c8_point_queries`: id 99 is absent (the call fails
with its `KeyError`), and a present-only collection succeeds with one entry
per id. -/
theorem c8_point_queries_witness :
    ((∃ t, lookup ecoliDic t = none ∧ getParent ecoliDic [562, 99] = .error (.keyError t)) ∧
     (∃ t, lookup ecoliDic t = none ∧ getRank ecoliDic [562, 99] = .error (.keyError t)) ∧
     (∃ t, lookup ecoliDic t = none ∧ getName ecoliDic [562, 99] = .error (.keyError t)) ∧
     (∃ t, lookup ecoliDic t = none ∧ getChildren ecoliDic [562, 99] = .error (.keyError t))) ∧
    ((∃ m, getParent ecoliDic [562, 1] = .ok m ∧ ∀ t ∈ [562, 1], (lookup m t).isSome) ∧
     (∃ m, getRank ecoliDic [562, 1] = .ok m ∧ ∀ t ∈ [562, 1], (lookup m t).isSome) ∧
     (∃ m, getName ecoliDic [562, 1] = .ok m ∧ ∀ t ∈ [562, 1], (lookup m t).isSome) ∧
     (∃ m, getChildren ecoliDic [562, 1] = .ok m ∧ ∀ t ∈ [562, 1], (lookup m t).isSome)) :=
  ⟨(c8_point_queries ecoliDic [562, 99]).1 ⟨99, by decide, rfl⟩,
   (c8_point_queries ecoliDic [562, 1]).2 (by decide)⟩

/-! ### Claim C10: duplicate input ids collapse -/

/-- C10: every batch query returns a mapping keyed by the distinct input ids:
running any of the seven per-id-mapping queries on an input list is the same
as running it on the list with duplicates removed (keeping first
occurrences), and a successful result has duplicate-free keys that are
exactly the input ids. -/
theorem c10_duplicates_collapse (dic : Dic) (fuel : Nat) (ids : List Nat) (b : Bool) :
    getParent dic ids = getParent dic (firstDedup ids) ∧
    getRank dic ids = getRank dic (firstDedup ids) ∧
    getName dic ids = getName dic (firstDedup ids) ∧
    getChildren dic ids = getChildren dic (firstDedup ids) ∧
    getAscendantsWithRanksAndNames dic fuel ids b
      = getAscendantsWithRanksAndNames dic fuel (firstDedup ids) b ∧
    getDescendants dic fuel ids = getDescendants dic fuel (firstDedup ids) ∧
    getDescendantsWithRanksAndNames dic fuel ids
      = getDescendantsWithRanksAndNames dic fuel (firstDedup ids) ∧
    (∀ (α : Type) (f : Nat → Except PyErr α) (m : List (Nat × α)),
      batchQuery f ids = .ok m → (keys m).Nodup ∧ ∀ t, t ∈ keys m ↔ t ∈ ids) := by
  have base : ∀ (α : Type) (f : Nat → Except PyErr α),
      batchQuery f ids = batchQuery f (firstDedup ids) := by
    intro α f
    exact batchGo_firstDedup f ids [] (by intro t v h; cases h)
  refine ⟨base _ _, base _ _, base _ _, base _ _, base _ _, base _ _, base _ _, ?_⟩
  intro α f m hok
  obtain ⟨h1, h2⟩ := batchGo_keys f ids [] m hok (by simp [keys_nil])
  refine ⟨h1, fun t => ?_⟩
  rw [h2 t, keys_nil]
  simp

/-- Closed witness for `c10_duplicates_collapse` at a duplicate-containing
input. -/
theorem c10_duplicates_collapse_witness :
    getParent ecoliDic [562, 562, 1] = getParent ecoliDic [562, 1] ∧
    ((keys ([(562, some 561), (1, none)] : List (Nat × Option Nat))).Nodup ∧
      ∀ t, t ∈ keys ([(562, some 561), (1, none)] : List (Nat × Option Nat))
        ↔ t ∈ [562, 562, 1]) := by
  have h := c10_duplicates_collapse ecoliDic 10 [562, 562, 1] false
  constructor
  · exact h.1
  · exact h.2.2.2.2.2.2.2 (Option Nat)
      (fun t3 => match lookup ecoliDic t3 with
        | none => .error (.keyError t3)
        | some n => .ok n.parent)
      [(562, some 561), (1, none)] rfl

/-! ### Claim C9: malformed edge lines abort the build -/

theorem parseNodeLine_ok_fields (l : String) (r : EdgeRec)
    (hok : parseNodeLine l = .ok r) :
    3 ≤ ((pySplit l '|').take 3).length ∧
    isPyNat (((pySplit l '|').take 3).headD "") = true := by
  unfold parseNodeLine at hok
  split at hok
  · cases hok
  · rename_i f0 rest heq
    split at hok
    · cases hok
    · rename_i t0 heqp0
      split at hok
      · cases hok
      · rename_i f1 rest2
        split at hok
        · cases hok
        · rename_i p1 heqp1
          split at hok
          · cases hok
          · rename_i f2 rest3
            constructor
            · rw [heq]
              simp
            · rw [heq]
              simp only [List.headD_cons]
              unfold parsePyInt at heqp0
              by_cases hn : isPyNat f0
              · exact hn
              · rw [if_neg hn] at heqp0
                cases heqp0

theorem parseNodeLine_malformed (l : String) (hbad : MalformedNodeLine l) :
    ∀ r : EdgeRec, parseNodeLine l ≠ .ok r := by
  intro r hok
  obtain ⟨hlen, hnum⟩ := parseNodeLine_ok_fields l r hok
  unfold MalformedNodeLine at hbad
  rcases hbad with h | h
  · omega
  · rw [hnum] at h
    cases h

theorem consumeNodeLines_error (lines : List String) :
    ∀ (st : Names × Dic) (l : String), l ∈ lines →
      (∀ r : EdgeRec, parseNodeLine l ≠ .ok r) →
      ∃ e, consumeNodeLines st lines = .error e := by
  induction lines with
  | nil =>
    intro st l h
    cases h
  | cons x xs ih =>
    intro st l hmem hbad
    rw [List.mem_cons] at hmem
    rcases hp : parseNodeLine x with e | r
    · exact ⟨e, by rw [consumeNodeLines, hp]⟩
    · rcases hmem with rfl | hmem
      · exact absurd hp (hbad r)
      · have hstep : consumeNodeLines st (x :: xs)
            = (match processEdgeRec st r with
               | .error e => .error e
               | .ok st2 => consumeNodeLines st2 xs) := by
          rw [consumeNodeLines, hp]
        rcases hq : processEdgeRec st r with e2 | st2
        · exact ⟨e2, by rw [hstep, hq]⟩
        · obtain ⟨e3, h3⟩ := ih st2 l hmem hbad
          exact ⟨e3, by rw [hstep, hq]; exact h3⟩

/-- C9: an edge-stream line with fewer than three fields or a non-numeric id
makes the build fail with an exception raised at that line (the spec's
`ParseError`), aborting construction: no tree value is produced and the line
is never silently skipped. -/
theorem c9_malformed_aborts (names : Names) (lines : List String) (l : String)
    (hmem : l ∈ lines) (hbad : MalformedNodeLine l) :
    ∃ e, buildFromLines names lines = .error e := by
  obtain ⟨e, he⟩ := consumeNodeLines_error lines (names, []) l hmem
    (parseNodeLine_malformed l hbad)
  unfold buildFromLines
  rw [he]
  exact ⟨e, rfl⟩

/-- Closed witness for `c9_malformed_aborts` at a two-field line. -/
theorem c9_malformed_aborts_witness :
    ∃ e, buildFromLines [] ["562|561"] = .error e :=
  c9_malformed_aborts [] ["562|561"] "562|561" (by simp) (Or.inl (by decide))

end NcbiTax
